import Mathlib

/-!
Verification development for the focus-pomodoro repository.

The session engine and statistics store live in `src/src/app/page.tsx`
(Home component) and `src/src/app/category/page.tsx` (CategoryPage).
The definitions below are a shallow embedding of that code: React state
is gathered into an explicit record, the `setState` calls of an event
handler are folded into one pure state transition, and JavaScript
numbers that the program keeps integral are modelled as `Int`
(lifetime focus-interval counts, which start at 0 and are only ever
incremented, as `Nat`).
-/

namespace FocusPomodoro

/-- Source: `type TimerMode = "focus" | "short" | "long"`. -/
inductive TimerMode
  | focus
  | short
  | long
deriving DecidableEq

/-- Source: `type Durations = { focus; short; long }` (minutes). -/
structure Durations where
  focus : Int
  short : Int
  long : Int
deriving DecidableEq

/-- Source: `const DEFAULT_DURATIONS = { focus: 25, short: 5, long: 15 }`. -/
def DEFAULT_DURATIONS : Durations := { focus := 25, short := 5, long := 15 }

/-- The lookup `durations[mode]`. -/
def durGet (d : Durations) : TimerMode → Int
  | .focus => d.focus
  | .short => d.short
  | .long => d.long

/-- Source: `type FocusEvent = { ts; category; minutes }`. -/
structure FocusEvent where
  ts : Int
  category : String
  minutes : Int
deriving DecidableEq

/-- Model of JavaScript `String.prototype.trim`: drop whitespace from
both ends of the character list. -/
def trimS (s : String) : String :=
  ⟨((s.data.dropWhile Char.isWhitespace).reverse.dropWhile
      Char.isWhitespace).reverse⟩

/-- Lookup in the `fp:category-minutes` map, `Number(map[label]) || 0`:
an absent key reads as 0. -/
def lookupOr0 : List (String × Int) → String → Int
  | [], _ => 0
  | (k, v) :: rest, l => if k = l then v else lookupOr0 rest l

/-- JavaScript object assignment `map[label] = v`: overwrite in place,
or append a new key at the end. -/
def cacheSet : List (String × Int) → String → Int → List (String × Int)
  | [], l, v => [(l, v)]
  | (k, w) :: rest, l, v =>
    if k = l then (l, v) :: rest else (k, w) :: cacheSet rest l v

/-- The `fp:category-minutes` update in `onFinish`:
`map[label] = Math.max(0, (Number(map[label]) || 0) + durations.focus)`. -/
def cacheAdd (c : List (String × Int)) (l : String) (m : Int) :
    List (String × Int) :=
  cacheSet c l (max 0 (lookupOr0 c l + m))

/-- The `fp:focus-events` append in `onFinish`: `events.push(newEvent)`
followed by `if (events.length > 1000) events = events.slice(events.length - 1000)`. -/
def appendEvent (l : List FocusEvent) (e : FocusEvent) : List FocusEvent :=
  let grown := l ++ [e]
  if grown.length > 1000 then grown.drop (grown.length - 1000) else grown

/-- The React state of the Home component that the session engine reads
and writes, together with the two localStorage-resident statistics
(`fp:category-minutes` and `fp:focus-events`).  `now` stands for the
value `Date.now()` would return. -/
structure EngineState where
  mode : TimerMode
  isRunning : Bool
  remainingSeconds : Int
  completedFocusCount : Nat
  totalMinutes : Int
  selectedCategory : String
  durations : Durations
  categoryMinutes : List (String × Int)
  focusEvents : List FocusEvent
  now : Int
deriving DecidableEq

/-- Source `nextMode(current)`: reads `completedFocusCount` from the
enclosing render, i.e. the value before any pending increment. -/
def nextMode (current : TimerMode) (completedFocusCount : Nat) : TimerMode :=
  if current = .focus then
    if (completedFocusCount + 1) % 4 = 0 then .long else .short
  else .focus

/-- Source `onFinish()`.  All `set...` calls of the handler are folded
into one transition; `nextMode(mode)` sees the pre-increment
`completedFocusCount` because React state updates are deferred.  The
emitted event's timestamp is `Date.now()`, modelled by `s.now`, and its
label is `(selectedCategory ?? "Genel").trim()`. -/
def onFinish (s : EngineState) : EngineState :=
  let nm := nextMode s.mode s.completedFocusCount
  if s.mode = .focus then
    let label := trimS s.selectedCategory
    { s with
      completedFocusCount := s.completedFocusCount + 1
      totalMinutes := s.totalMinutes + s.durations.focus
      categoryMinutes := cacheAdd s.categoryMinutes label s.durations.focus
      focusEvents := appendEvent s.focusEvents
        { ts := s.now, category := label, minutes := s.durations.focus }
      mode := nm
      remainingSeconds := durGet s.durations nm * 60 }
  else
    { s with mode := nm, remainingSeconds := durGet s.durations nm * 60 }

/-- One firing of the interval callback: the `setRemainingSeconds`
updater decrements, and at `prev <= 1` stops the timer, returns 0 and
runs `onFinish` (which then installs the next mode's fresh countdown).
The callback only exists while `isRunning`. -/
def tick (s : EngineState) : EngineState :=
  if s.isRunning then
    if s.remainingSeconds ≤ 1 then
      onFinish { s with isRunning := false, remainingSeconds := 0 }
    else
      { s with remainingSeconds := s.remainingSeconds - 1 }
  else s

/-- Source `handleStartPause()`: toggle `isRunning`. -/
def handleStartPause (s : EngineState) : EngineState :=
  { s with isRunning := !s.isRunning }

/-- Source `handleReset()`: stop and reload the current mode's duration. -/
def handleReset (s : EngineState) : EngineState :=
  { s with isRunning := false,
           remainingSeconds := durGet s.durations s.mode * 60 }

/-- Source `handleSkip()`: stop, move to `nextMode(mode)`, fresh
countdown; nothing else. -/
def handleSkip (s : EngineState) : EngineState :=
  let nm := nextMode s.mode s.completedFocusCount
  { s with isRunning := false, mode := nm,
           remainingSeconds := durGet s.durations nm * 60 }

/-- A durations edit together with the effect
`useEffect(() => setRemainingSeconds(durations[mode] * 60), [durations, mode])`:
any new durations object reinstalls the current mode's full countdown. -/
def setDurationsOp (s : EngineState) (d : Durations) : EngineState :=
  { s with durations := d, remainingSeconds := durGet d s.mode * 60 }

/-- Reset, start, and run the countdown to completion:
`durations[mode] * 60` ticks. -/
def completeInterval (s : EngineState) : EngineState :=
  tick^[(durGet s.durations s.mode * 60).toNat] (handleStartPause (handleReset s))

/-- One full pomodoro cycle from focus mode: complete the focus
interval (entering the scheduled break) and then complete the break
(returning to focus). -/
def pomodoroCycle (s : EngineState) : EngineState :=
  completeInterval (completeInterval s)

/-- All three configured durations are at least one minute. -/
def durationsPos (d : Durations) : Prop :=
  1 ≤ d.focus ∧ 1 ≤ d.short ∧ 1 ≤ d.long

instance : DecidablePred durationsPos := fun d => by
  unfold durationsPos; infer_instance

/-- A concrete engine state used to instantiate theorems: focus mode,
running, one-minute durations, fresh counters. -/
def sampleState : EngineState :=
  { mode := .focus
    isRunning := true
    remainingSeconds := 60
    completedFocusCount := 0
    totalMinutes := 0
    selectedCategory := "Genel"
    durations := { focus := 1, short := 1, long := 1 }
    categoryMinutes := []
    focusEvents := []
    now := 0 }

/-! ### Statistics store: recordCompletion and log replay -/

/-- The focus-completion path of `onFinish` restricted to the two
statistics (`fp:category-minutes` cache and `fp:focus-events` log):
update the cache entry and append the event. -/
def recordCompletion (st : List (String × Int) × List FocusEvent)
    (label : String) (m : Int) (ts : Int) :
    List (String × Int) × List FocusEvent :=
  (cacheAdd st.1 label m, appendEvent st.2 { ts := ts, category := label, minutes := m })

/-- Replay of the event log: summed minutes of the events carrying the
given category label. -/
def replayTotal (log : List FocusEvent) (l : String) : Int :=
  ((log.filter (fun e => e.category = l)).map FocusEvent.minutes).sum

/-- Fold a command list (category label, minutes) through
`recordCompletion`, starting from the empty cache and empty log. -/
def foldRecord (cmds : List (String × Int)) :
    List (String × Int) × List FocusEvent :=
  cmds.foldl (fun st p => recordCompletion st p.1 p.2 0) ([], [])

/-- One `recordCompletion` of 25 minutes in category `A`. -/
def recordStep (st : List (String × Int) × List FocusEvent) :
    List (String × Int) × List FocusEvent :=
  recordCompletion st "A" 25 0

/-- `n` identical completions from the empty statistics state. -/
def runRecord (n : Nat) : List (String × Int) × List FocusEvent :=
  recordStep^[n] ([], [])

/-! ### Durations configuration: clamping and persisted load -/

/-- The settings inputs' `Math.max(1, Math.min(180, x))`. -/
def clampDuration (x : Int) : Int := max 1 (min 180 x)

/-- `Number(e.target.value || 0)`: an empty (or non-numeric, which a
number input reports as empty) field reads as 0. -/
def inputNumber (raw : Option Int) : Int := raw.getD 0

/-- The focus settings input `onChange` handler. -/
def setFocusInput (d : Durations) (raw : Option Int) : Durations :=
  { d with focus := clampDuration (inputNumber raw) }

/-- The short-break settings input `onChange` handler. -/
def setShortInput (d : Durations) (raw : Option Int) : Durations :=
  { d with short := clampDuration (inputNumber raw) }

/-- The long-break settings input `onChange` handler. -/
def setLongInput (d : Durations) (raw : Option Int) : Durations :=
  { d with long := clampDuration (inputNumber raw) }

/-- A parsed `Partial<Durations>` whose present fields are numeric. -/
structure DurationsOverlay where
  focus : Option Int
  short : Option Int
  long : Option Int
deriving DecidableEq

/-- The startup load `setDurations((prev) => ({ ...prev, ...parsed }))`:
field-wise merge of the parsed object over the previous record, with no
clamping. -/
def mergeDurations (prev : Durations) (p : DurationsOverlay) : Durations :=
  { focus := p.focus.getD prev.focus
    short := p.short.getD prev.short
    long := p.long.getD prev.long }

/-- The [1,180] range invariant for all three configured durations. -/
def durationsInRange (d : Durations) : Prop :=
  (1 ≤ d.focus ∧ d.focus ≤ 180) ∧ (1 ≤ d.short ∧ d.short ≤ 180) ∧
    (1 ≤ d.long ∧ d.long ≤ 180)

instance : DecidablePred durationsInRange := fun d => by
  unfold durationsInRange; infer_instance

/-! ### Raw persisted values: malformed data handling -/

/-- A parsed JSON value (numbers restricted to the integral ones the
application writes). -/
inductive JVal
  | null
  | bool (b : Bool)
  | num (n : Int)
  | str (s : String)
  | arr (xs : List JVal)
  | obj (fields : List (String × JVal))

/-- What `localStorage.getItem` + `JSON.parse` can yield for a key:
no stored string, a string that throws in `JSON.parse`, or a value. -/
inductive StoredVal
  | absent
  | corrupt
  | value (v : JVal)

/-- The durations record before any typing assumption: each field holds
whatever JSON value the merge put there. -/
structure RawDurations where
  focus : JVal
  short : JVal
  long : JVal

/-- `DEFAULT_DURATIONS` as raw JSON fields. -/
def rawDefaultDurations : RawDurations := ⟨.num 25, .num 5, .num 15⟩

/-- Last binding of a key in a parsed JSON object (later duplicate keys
override earlier ones, as in `JSON.parse` and object spread). -/
def lookupLast (fs : List (String × JVal)) (k : String) : Option JVal :=
  List.lookup k fs.reverse

/-- `{ ...prev, ...parsed }` on the three known fields: a present field
of the parsed object overrides, whatever its type. -/
def mergeRawDurations (prev : RawDurations) (fs : List (String × JVal)) :
    RawDurations :=
  { focus := (lookupLast fs "focus").getD prev.focus
    short := (lookupLast fs "short").getD prev.short
    long := (lookupLast fs "long").getD prev.long }

/-- The durations load effect: `try { parsed = raw ? JSON.parse(raw) :
undefined; if (parsed && typeof parsed === "object") setDurations(prev
=> ({ ...prev, ...parsed })) } catch \x7b\x7d`.  A parse failure is caught; a
falsy or non-object parse is skipped; `null` is falsy; an array is
`typeof "object"` but spreads only numeric index keys, leaving the
three named fields untouched. -/
def loadDurationsRaw (prev : RawDurations) : StoredVal → RawDurations
  | .absent => prev
  | .corrupt => prev
  | .value (.obj fs) => mergeRawDurations prev fs
  | .value _ => prev

/-- A stored value for `useLocalStorageNumber` keys after
`raw ? Number(raw) : NaN`: absent, non-numeric (not finite), or a
finite number. -/
inductive StoredNumber
  | absent
  | nonNumeric
  | numeric (n : Int)

/-- The `useLocalStorageNumber` load effect: only a finite parse
replaces the initial value. -/
def loadStoredNumber (current : Int) : StoredNumber → Int
  | .absent => current
  | .nonNumeric => current
  | .numeric n => n

/-! ### Weekly aggregation (category/page.tsx) -/

/-- Milliseconds per day, `24 * 60 * 60 * 1000`. -/
def dayMs : Int := 86400000

/-- The local calendar day containing an epoch-millisecond timestamp,
for a fixed UTC offset `off` (local clock = UTC + `off` ms); floor
division, and `/` on `Int` is floor division for this positive
divisor. -/
def localDay (off ts : Int) : Int := (ts + off) / dayMs

/-- The Monday starting the current week, as a local day number.
`getDay()` of local day `d` is `(d + 4) % 7` (day 0, 1970-01-01, was a
Thursday); the code subtracts `diffToMonday = (day + 6) % 7`. -/
def weekStartDay (off now : Int) : Int :=
  localDay off now - ((localDay off now + 4) % 7 + 6) % 7

/-- `weekStart.getTime()`: local midnight of the week's Monday, in
epoch milliseconds. -/
def weekStartMs (off now : Int) : Int := weekStartDay off now * dayMs - off

/-- One entry of the `weekDays` array: the day's date (epoch ms of its
local midnight standing in for the `Date`), running total, and
per-category breakdown. -/
structure DayRow where
  date : Int
  total : Int
  breakdown : List (String × Int)

/-- Default row used for out-of-range indexing in statements. -/
def emptyRow : DayRow := ⟨0, 0, []⟩

/-- The initial `weekDays` row for day `j` of the week: local midnight
date, zero total, empty breakdown. -/
def weekRow (S : Int) (j : Nat) : DayRow :=
  { date := S + (j : Int) * dayMs, total := 0, breakdown := [] }

/-- Add minutes to a label's entry, keeping its position, or append a
new entry: this is both `existing.minutes += m` / `breakdown.push` on
the day rows and `Map.set(label, (get ?? 0) + m)` on the totals map. -/
def bump : List (String × Int) → String → Int → List (String × Int)
  | [], k, m => [(k, m)]
  | (k', v) :: rest, k, m =>
    if k' = k then (k', v + m) :: rest else (k', v) :: bump rest k m

/-- The body of the event loop in the weekly `useMemo`: events outside
`[startMs, startMs + 7 days)` are skipped; inside, the day index is
`Math.floor((ts - startMs) / dayMs)` and the guarded `days[idx]` row
is updated together with the week-wide totals map. -/
def addEventToWeek (startMs : Int)
    (acc : List DayRow × List (String × Int)) (e : FocusEvent) :
    List DayRow × List (String × Int) :=
  if startMs ≤ e.ts ∧ e.ts < startMs + 7 * dayMs then
    let idx := ((e.ts - startMs) / dayMs).toNat
    match acc.1[idx]? with
    | none => acc
    | some row =>
      let row' : DayRow :=
        ⟨row.date, row.total + e.minutes, bump row.breakdown e.category e.minutes⟩
      (acc.1.set idx row', bump acc.2 e.category e.minutes)
  else acc

/-- `breakdown.sort((a, b) => b.minutes - a.minutes)`: descending by
minutes (the sorting algorithm is irrelevant up to permutation). -/
def sortBreakdownDesc (l : List (String × Int)) : List (String × Int) :=
  List.insertionSort (fun a b => b.2 ≤ a.2) l

/-- The weekly `useMemo`: seven rows Monday..Sunday initialized at the
week's local midnights, one pass over the events, then each day's
breakdown sorted descending.  Returns `(weekDays,
weeklyTotalsByCategory)`. -/
def weeklyTotals (off now : Int) (events : List FocusEvent) :
    List DayRow × List (String × Int) :=
  let startMs := weekStartMs off now
  let days0 := (List.range 7).map (weekRow startMs)
  let folded := events.foldl (addEventToWeek startMs) (days0, [])
  (folded.1.map (fun d => { d with breakdown := sortBreakdownDesc d.breakdown }),
   folded.2)

/-- The event filter of the weekly loop:
`ev.ts >= startMs && ev.ts < endMs`. -/
def inWeekWindow (S : Int) (e : FocusEvent) : Bool :=
  decide (S ≤ e.ts) && decide (e.ts < S + 7 * dayMs)

/-- An event lands in week bucket `i`: it is inside the window and
`Math.floor((ts - startMs) / dayMs)` is `i`. -/
def inBucket (S : Int) (i : Nat) (e : FocusEvent) : Bool :=
  inWeekWindow S e && (((e.ts - S) / dayMs).toNat == i)

/-- Bucket membership restricted to one category label. -/
def inBucketCat (S : Int) (i : Nat) (l : String) (e : FocusEvent) : Bool :=
  inBucket S i e && (e.category == l)

/-- Window membership restricted to one category label. -/
def inWindowCat (S : Int) (l : String) (e : FocusEvent) : Bool :=
  inWeekWindow S e && (e.category == l)

/-- Summed minutes over entries of an association list carrying a key
(association lists built by `bump` keep keys unique, but the sum form
is stable under permutation). -/
def lookupSum (l : List (String × Int)) (k : String) : Int :=
  ((l.filter (fun p => p.1 = k)).map Prod.snd).sum

/-- Specification-side sum: minutes of the events on a given local
calendar day. -/
def daySumAt (off d : Int) (events : List FocusEvent) : Int :=
  ((events.filter (fun e => localDay off e.ts = d)).map FocusEvent.minutes).sum

/-- Specification-side sum: minutes of the events on a given local
calendar day carrying a given category. -/
def dayCatSumAt (off d : Int) (events : List FocusEvent) (l : String) : Int :=
  ((events.filter (fun e => localDay off e.ts = d ∧ e.category = l)).map
    FocusEvent.minutes).sum

/-- Specification-side sum: minutes of the current week's events
carrying a given category. -/
def weekCatSum (off now : Int) (events : List FocusEvent) (l : String) : Int :=
  ((events.filter (fun e =>
      weekStartDay off now ≤ localDay off e.ts ∧
      localDay off e.ts < weekStartDay off now + 7 ∧ e.category = l)).map
    FocusEvent.minutes).sum

/-! ### Category colors (category/page.tsx) -/

/-- `Set` insertion: keep the first occurrence of each label. -/
def addUnique (acc : List String) (x : String) : List String :=
  if x ∈ acc then acc else acc ++ [x]

/-- The labels with recorded activity, in first-seen order (cache keys,
then event categories), blank labels dropped: `Array.from(set)
.filter((x) => x.trim().length > 0)` before the sort. -/
def activityLabels (cache : List (String × Int)) (events : List FocusEvent) :
    List String :=
  ((cache.map Prod.fst ++ events.map FocusEvent.category).foldl addUnique
    []).filter (fun x => trimS x ≠ "")

/-- The `allCategories` memo: activity labels sorted with the host's
Turkish collator, `.sort((a, b) => a.localeCompare(b, "tr"))`.  The
collator is an environment (ICU) capability, like the clock, so the
model takes it as a parameter: `le a b` stands for
`a.localeCompare(b, "tr") <= 0`. -/
def allCategories (le : String → String → Bool)
    (cache : List (String × Int)) (events : List FocusEvent) : List String :=
  List.insertionSort (fun a b => le a b = true) (activityLabels cache events)

/-- The five chart colors. -/
def palette : List String :=
  ["var(--chart-1)", "var(--chart-2)", "var(--chart-3)", "var(--chart-4)",
   "var(--chart-5)"]

/-- The `categoryColor` memo specialized to a label list: the map sends
the `idx`-th label to `palette[idx % palette.length]`, and lookup
falls back to `palette[0]`. -/
def colorOf (cats : List String) (label : String) : String :=
  match List.indexOf? label cats with
  | some i => palette.getD (i % palette.length) "var(--chart-1)"
  | none => "var(--chart-1)"

/-- The color the page assigns to a label, from the cache and events,
under the host collator `le`. -/
def categoryColor (le : String → String → Bool)
    (cache : List (String × Int)) (events : List FocusEvent)
    (label : String) : String :=
  colorOf (allCategories le cache events) label

/-- Turkish alphabet position of a letter (case-folded), with q, w, x
at their Latin positions, per the CLDR Turkish tailoring:
a b c ç d e f g ğ h ı i j k l m n o ö p q r s ş t u ü v w x y z.
The second component is the case bit (0 lowercase, 1 uppercase; ICU's
default tertiary order sorts lowercase first).  In Turkish, I is the
uppercase of ı, and İ the uppercase of i.  Non-letters are `none`. -/
def trLetter (c : Char) : Option (Nat × Nat) :=
  match c with
  | 'a' => some (0, 0)
  | 'A' => some (0, 1)
  | 'b' => some (1, 0)
  | 'B' => some (1, 1)
  | 'c' => some (2, 0)
  | 'C' => some (2, 1)
  | 'ç' => some (3, 0)
  | 'Ç' => some (3, 1)
  | 'd' => some (4, 0)
  | 'D' => some (4, 1)
  | 'e' => some (5, 0)
  | 'E' => some (5, 1)
  | 'f' => some (6, 0)
  | 'F' => some (6, 1)
  | 'g' => some (7, 0)
  | 'G' => some (7, 1)
  | 'ğ' => some (8, 0)
  | 'Ğ' => some (8, 1)
  | 'h' => some (9, 0)
  | 'H' => some (9, 1)
  | 'ı' => some (10, 0)
  | 'I' => some (10, 1)
  | 'i' => some (11, 0)
  | 'İ' => some (11, 1)
  | 'j' => some (12, 0)
  | 'J' => some (12, 1)
  | 'k' => some (13, 0)
  | 'K' => some (13, 1)
  | 'l' => some (14, 0)
  | 'L' => some (14, 1)
  | 'm' => some (15, 0)
  | 'M' => some (15, 1)
  | 'n' => some (16, 0)
  | 'N' => some (16, 1)
  | 'o' => some (17, 0)
  | 'O' => some (17, 1)
  | 'ö' => some (18, 0)
  | 'Ö' => some (18, 1)
  | 'p' => some (19, 0)
  | 'P' => some (19, 1)
  | 'q' => some (20, 0)
  | 'Q' => some (20, 1)
  | 'r' => some (21, 0)
  | 'R' => some (21, 1)
  | 's' => some (22, 0)
  | 'S' => some (22, 1)
  | 'ş' => some (23, 0)
  | 'Ş' => some (23, 1)
  | 't' => some (24, 0)
  | 'T' => some (24, 1)
  | 'u' => some (25, 0)
  | 'U' => some (25, 1)
  | 'ü' => some (26, 0)
  | 'Ü' => some (26, 1)
  | 'v' => some (27, 0)
  | 'V' => some (27, 1)
  | 'w' => some (28, 0)
  | 'W' => some (28, 1)
  | 'x' => some (29, 0)
  | 'X' => some (29, 1)
  | 'y' => some (30, 0)
  | 'Y' => some (30, 1)
  | 'z' => some (31, 0)
  | 'Z' => some (31, 1)
  | _ => none

/-- Collation key of one character: primary weight (controls, digits
and low punctuation below the letters, letters in Turkish alphabet
order, all remaining code points above), then the case bit, then the
raw code point as a final tiebreak (every code point is below
`2 ^ 21`). -/
def charKey (c : Char) : Nat :=
  match trLetter c with
  | some (p, k) => (1000 + p) * 2 ^ 22 + k * 2 ^ 21 + c.toNat
  | none =>
    if c.toNat < 65 then c.toNat * 2 ^ 22 + c.toNat
    else (2000 + c.toNat) * 2 ^ 22 + c.toNat

/-- Lexicographic comparison of collation-key lists. -/
def lexLeN : List Nat → List Nat → Bool
  | [], _ => true
  | _ :: _, [] => false
  | a :: as, b :: bs => if a = b then lexLeN as bs else decide (a < b)

/-- A concrete instance of the Turkish collator
(`a.localeCompare(b, "tr") <= 0`): lexicographic on per-character
Turkish-primary collation keys.  It orders the application's labels as
ICU does — in particular the default categories sort Çalışma, Genel,
Okuma, Yazılım. -/
def trLe (a b : String) : Bool :=
  lexLeN (a.data.map charKey) (b.data.map charKey)

/-- Modelled from the spec: color assignment "in first-seen order among
categories with any recorded activity" — the same palette indexing, but
over the unsorted first-seen label list.  Kept for comparison with the
source's `categoryColor`. -/
def specColorFirstSeen (cache : List (String × Int))
    (events : List FocusEvent) (label : String) : String :=
  colorOf (activityLabels cache events) label

/-! ## Theorems -/

/-! ### Countdown machinery -/

lemma tick_countdown (k : Nat) (s : EngineState) (hrun : s.isRunning = true)
    (hlt : (k : Int) < s.remainingSeconds) :
    tick^[k] s = { s with remainingSeconds := s.remainingSeconds - k } := by
  induction k generalizing s with
  | zero => simp
  | succ k ih =>
    rw [Function.iterate_succ_apply]
    have hgt : ¬ s.remainingSeconds ≤ 1 := by push_cast at hlt; omega
    have htick : tick s = { s with remainingSeconds := s.remainingSeconds - 1 } := by
      simp [tick, hrun, hgt]
    rw [htick]
    rw [ih { s with remainingSeconds := s.remainingSeconds - 1 } hrun
      (by show (k : Int) < s.remainingSeconds - 1; push_cast at hlt; omega)]
    have hv : s.remainingSeconds - 1 - (k : Int) =
        s.remainingSeconds - ((k + 1 : Nat) : Int) := by push_cast; ring
    show ({ s with remainingSeconds := s.remainingSeconds - 1 - (k : Int) }
        : EngineState) =
      { s with remainingSeconds := s.remainingSeconds - ((k + 1 : Nat) : Int) }
    exact congrArg (fun x => { s with remainingSeconds := x }) hv

lemma run_to_finish (s : EngineState) (hrun : s.isRunning = true)
    (hrem : s.remainingSeconds = durGet s.durations s.mode * 60)
    (hpos : 1 ≤ durGet s.durations s.mode) :
    tick^[(durGet s.durations s.mode * 60).toNat] s =
      onFinish { s with isRunning := false, remainingSeconds := 0 } := by
  have h60 : (60 : Int) ≤ durGet s.durations s.mode * 60 := by omega
  have hDnat : (((durGet s.durations s.mode * 60).toNat : Nat) : Int) =
      durGet s.durations s.mode * 60 := Int.toNat_of_nonneg (by omega)
  obtain ⟨M, hM⟩ : ∃ M, (durGet s.durations s.mode * 60).toNat = M + 1 :=
    ⟨(durGet s.durations s.mode * 60).toNat - 1, by omega⟩
  have hMD : ((M : Int)) + 1 = durGet s.durations s.mode * 60 := by
    rw [← hDnat, hM]; push_cast; ring
  rw [hM, Function.iterate_succ_apply']
  rw [tick_countdown M s hrun (by omega)]
  have hfin : s.remainingSeconds - (M : Int) ≤ 1 := by omega
  have : tick { s with remainingSeconds := s.remainingSeconds - (M : Int) } =
      onFinish { { s with remainingSeconds := s.remainingSeconds - (M : Int) }
        with isRunning := false, remainingSeconds := 0 } := by
    simp only [tick, hrun, if_true]
    rw [if_pos hfin]
  rw [this]

lemma onFinish_mode (s : EngineState) :
    (onFinish s).mode = nextMode s.mode s.completedFocusCount := by
  by_cases h : s.mode = .focus <;> simp [onFinish, h]

lemma onFinish_durations (s : EngineState) :
    (onFinish s).durations = s.durations := by
  by_cases h : s.mode = .focus <;> simp [onFinish, h]

lemma onFinish_isRunning (s : EngineState) :
    (onFinish s).isRunning = s.isRunning := by
  by_cases h : s.mode = .focus <;> simp [onFinish, h]

lemma onFinish_focus_fields (s : EngineState) (h : s.mode = .focus) :
    (onFinish s).completedFocusCount = s.completedFocusCount + 1 ∧
    (onFinish s).totalMinutes = s.totalMinutes + s.durations.focus ∧
    (onFinish s).categoryMinutes =
      cacheAdd s.categoryMinutes (trimS s.selectedCategory) s.durations.focus ∧
    (onFinish s).focusEvents = appendEvent s.focusEvents
      { ts := s.now, category := trimS s.selectedCategory,
        minutes := s.durations.focus } := by
  simp [onFinish, h]

lemma onFinish_break_fields (s : EngineState) (h : s.mode ≠ .focus) :
    (onFinish s).completedFocusCount = s.completedFocusCount ∧
    (onFinish s).totalMinutes = s.totalMinutes ∧
    (onFinish s).categoryMinutes = s.categoryMinutes ∧
    (onFinish s).focusEvents = s.focusEvents := by
  simp [onFinish, h]

lemma nextMode_ne (m : TimerMode) (c : Nat) : nextMode m c ≠ m := by
  cases m
  case focus =>
    unfold nextMode
    rw [if_pos rfl]
    split <;> simp
  case short => simp [nextMode]
  case long => simp [nextMode]

lemma completeInterval_eq (s : EngineState)
    (hpos : 1 ≤ durGet s.durations s.mode) :
    completeInterval s =
      onFinish { s with isRunning := false, remainingSeconds := 0 } := by
  show tick^[(durGet s.durations s.mode * 60).toNat]
      { s with isRunning := true,
               remainingSeconds := durGet s.durations s.mode * 60 } =
    onFinish { s with isRunning := false, remainingSeconds := 0 }
  exact run_to_finish
    { s with isRunning := true,
             remainingSeconds := durGet s.durations s.mode * 60 }
    rfl rfl hpos

lemma cycle_props (s : EngineState) (hm : s.mode = .focus)
    (hd : durationsPos s.durations) :
    (pomodoroCycle s).mode = .focus ∧
    (pomodoroCycle s).completedFocusCount = s.completedFocusCount + 1 ∧
    (pomodoroCycle s).durations = s.durations := by
  have hpos1 : 1 ≤ durGet s.durations s.mode := by rw [hm]; exact hd.1
  have h1 := completeInterval_eq s hpos1
  have hmode1 : (completeInterval s).mode =
      nextMode TimerMode.focus s.completedFocusCount := by
    rw [h1, onFinish_mode]; simp [hm]
  have hne1 : (completeInterval s).mode ≠ .focus := by
    rw [hmode1]; unfold nextMode; split
    · split <;> simp
    · simp_all
  have hdur1 : (completeInterval s).durations = s.durations := by
    rw [h1, onFinish_durations]
  have hcount1 : (completeInterval s).completedFocusCount =
      s.completedFocusCount + 1 := by
    rw [h1]
    exact (onFinish_focus_fields
      { s with isRunning := false, remainingSeconds := 0 } hm).1
  have hpos2 : 1 ≤ durGet (completeInterval s).durations (completeInterval s).mode := by
    rw [hdur1, hmode1]; unfold nextMode; split
    · split
      · exact hd.2.2
      · exact hd.2.1
    · exact hd.1
  have h2 := completeInterval_eq (completeInterval s) hpos2
  refine ⟨?_, ?_, ?_⟩
  · show (completeInterval (completeInterval s)).mode = .focus
    rw [h2, onFinish_mode]
    show nextMode (completeInterval s).mode _ = .focus
    unfold nextMode
    rw [if_neg hne1]
  · show (completeInterval (completeInterval s)).completedFocusCount =
      s.completedFocusCount + 1
    rw [h2]
    have := (onFinish_break_fields
      { completeInterval s with isRunning := false, remainingSeconds := 0 }
      hne1).1
    rw [this, hcount1]
  · show (completeInterval (completeInterval s)).durations = s.durations
    rw [h2, onFinish_durations]
    exact hdur1

lemma cycle_iter (n : Nat) (s : EngineState) (hm : s.mode = .focus)
    (hd : durationsPos s.durations) :
    (pomodoroCycle^[n] s).mode = .focus ∧
    (pomodoroCycle^[n] s).completedFocusCount = s.completedFocusCount + n ∧
    (pomodoroCycle^[n] s).durations = s.durations := by
  induction n with
  | zero => exact ⟨hm, rfl, rfl⟩
  | succ n ih =>
    obtain ⟨ihm, ihc, ihd⟩ := ih
    have hd' : durationsPos (pomodoroCycle^[n] s).durations := by
      rw [ihd]; exact hd
    obtain ⟨h1, h2, h3⟩ := cycle_props (pomodoroCycle^[n] s) ihm hd'
    rw [Function.iterate_succ_apply']
    exact ⟨h1, by rw [h2, ihc]; omega, by rw [h3, ihd]⟩

/-- C1: whenever the engine leaves focus mode — countdown finish
(`onFinish`) or `skip()` — the next mode is the long break exactly when
`(completedFocusCount + 1) mod 4 == 0` and the short break otherwise,
and from either break mode the next mode is always focus; consequently,
starting from a count of 0, after `n + 1` consecutive completed
(non-skipped) focus intervals the scheduled break is long exactly when
`(n + 1) mod 4 == 0`. -/
theorem claim_C1_transition_rule (s0 : EngineState) (n : Nat)
    (hm : s0.mode = .focus) (hc : s0.completedFocusCount = 0)
    (hd : durationsPos s0.durations) :
    (∀ s : EngineState, s.mode = .focus →
      (onFinish s).mode = (if (s.completedFocusCount + 1) % 4 = 0 then
        TimerMode.long else TimerMode.short) ∧
      (handleSkip s).mode = (if (s.completedFocusCount + 1) % 4 = 0 then
        TimerMode.long else TimerMode.short)) ∧
    (∀ s : EngineState, s.mode ≠ .focus →
      (onFinish s).mode = TimerMode.focus ∧
      (handleSkip s).mode = TimerMode.focus) ∧
    ((pomodoroCycle^[n] s0).mode = .focus ∧
     (pomodoroCycle^[n] s0).completedFocusCount = n ∧
     ((completeInterval (pomodoroCycle^[n] s0)).mode = TimerMode.long ↔
       (n + 1) % 4 = 0)) := by
  refine ⟨?_, ?_, ?_⟩
  · intro s hs
    constructor
    · rw [onFinish_mode]; unfold nextMode; rw [if_pos hs]
    · show nextMode s.mode s.completedFocusCount = _
      unfold nextMode; rw [if_pos hs]
  · intro s hs
    constructor
    · rw [onFinish_mode]; unfold nextMode; rw [if_neg hs]
    · show nextMode s.mode s.completedFocusCount = _
      unfold nextMode; rw [if_neg hs]
  · obtain ⟨h1, h2, h3⟩ := cycle_iter n s0 hm hd
    refine ⟨h1, by rw [h2, hc]; exact Nat.zero_add n, ?_⟩
    have hp : 1 ≤ durGet (pomodoroCycle^[n] s0).durations
        (pomodoroCycle^[n] s0).mode := by
      rw [h3, h1]; exact hd.1
    rw [completeInterval_eq _ hp, onFinish_mode]
    show nextMode (pomodoroCycle^[n] s0).mode
      (pomodoroCycle^[n] s0).completedFocusCount = TimerMode.long ↔
        (n + 1) % 4 = 0
    rw [h1, h2, hc]
    unfold nextMode
    rw [if_pos rfl, Nat.zero_add]
    split_ifs with h4 <;> simp [h4]

/-- C1 witness: three full cycles from a fresh focus state; the break
scheduled by the fourth completion is the long one. -/
theorem claim_C1_transition_rule_witness :
    (sampleState.mode = TimerMode.focus ∧
     sampleState.completedFocusCount = 0 ∧
     durationsPos sampleState.durations) ∧
    ((pomodoroCycle^[3] sampleState).mode = TimerMode.focus ∧
     (pomodoroCycle^[3] sampleState).completedFocusCount = 3 ∧
     ((completeInterval (pomodoroCycle^[3] sampleState)).mode =
        TimerMode.long ↔ (3 + 1) % 4 = 0)) :=
  ⟨⟨rfl, rfl, by decide⟩,
   (claim_C1_transition_rule sampleState 3 rfl rfl (by decide)).2.2⟩

/-- C2: from a fresh reset in any mode, started running, invoking
`tick()` exactly `durations[mode] * 60` times counts `remainingSeconds`
down to exactly 0 — with no mode change, no counter change and no event
before the final tick — and the final tick triggers exactly one mode
transition and stops the timer; if the completed mode was focus,
`completedFocusCount` increases by exactly 1, `totalMinutes` by exactly
`durations.focus`, and exactly one FocusEvent is appended to the log; a
completed break changes none of the statistics. -/
theorem claim_C2_countdown_completion (s : EngineState)
    (hrun : s.isRunning = true)
    (hrem : s.remainingSeconds = durGet s.durations s.mode * 60)
    (hpos : 1 ≤ durGet s.durations s.mode) :
    (∀ k, k < (durGet s.durations s.mode * 60).toNat →
      (tick^[k] s).mode = s.mode ∧
      (tick^[k] s).remainingSeconds = s.remainingSeconds - k ∧
      (tick^[k] s).completedFocusCount = s.completedFocusCount ∧
      (tick^[k] s).totalMinutes = s.totalMinutes ∧
      (tick^[k] s).focusEvents = s.focusEvents) ∧
    tick^[(durGet s.durations s.mode * 60).toNat] s =
      onFinish { s with isRunning := false, remainingSeconds := 0 } ∧
    (tick^[(durGet s.durations s.mode * 60).toNat] s).mode =
      nextMode s.mode s.completedFocusCount ∧
    (tick^[(durGet s.durations s.mode * 60).toNat] s).mode ≠ s.mode ∧
    (tick^[(durGet s.durations s.mode * 60).toNat] s).isRunning = false ∧
    (s.mode = .focus →
      (tick^[(durGet s.durations s.mode * 60).toNat] s).completedFocusCount =
        s.completedFocusCount + 1 ∧
      (tick^[(durGet s.durations s.mode * 60).toNat] s).totalMinutes =
        s.totalMinutes + s.durations.focus ∧
      (tick^[(durGet s.durations s.mode * 60).toNat] s).focusEvents =
        appendEvent s.focusEvents
          { ts := s.now, category := trimS s.selectedCategory,
            minutes := s.durations.focus }) ∧
    (s.mode ≠ .focus →
      (tick^[(durGet s.durations s.mode * 60).toNat] s).completedFocusCount =
        s.completedFocusCount ∧
      (tick^[(durGet s.durations s.mode * 60).toNat] s).totalMinutes =
        s.totalMinutes ∧
      (tick^[(durGet s.durations s.mode * 60).toNat] s).focusEvents =
        s.focusEvents) := by
  have hDnat : (((durGet s.durations s.mode * 60).toNat : Nat) : Int) =
      durGet s.durations s.mode * 60 := Int.toNat_of_nonneg (by omega)
  have hfin := run_to_finish s hrun hrem hpos
  refine ⟨?_, hfin, ?_, ?_, ?_, ?_, ?_⟩
  · intro k hk
    have hlt : (k : Int) < s.remainingSeconds := by
      rw [hrem, ← hDnat]; exact_mod_cast hk
    rw [tick_countdown k s hrun hlt]
    exact ⟨rfl, rfl, rfl, rfl, rfl⟩
  · rw [hfin, onFinish_mode]
  · rw [hfin, onFinish_mode]
    exact nextMode_ne _ _
  · rw [hfin, onFinish_isRunning]
  · intro hf
    rw [hfin]
    have := onFinish_focus_fields
      { s with isRunning := false, remainingSeconds := 0 } hf
    exact ⟨this.1, this.2.1, this.2.2.2⟩
  · intro hb
    rw [hfin]
    have := onFinish_break_fields
      { s with isRunning := false, remainingSeconds := 0 } hb
    exact ⟨this.1, this.2.1, this.2.2.2⟩

/-- C2 witness: one-minute focus countdown from the sample state. -/
theorem claim_C2_countdown_completion_witness :
    (sampleState.isRunning = true ∧
     sampleState.remainingSeconds =
       durGet sampleState.durations sampleState.mode * 60 ∧
     1 ≤ durGet sampleState.durations sampleState.mode) ∧
    tick^[(durGet sampleState.durations sampleState.mode * 60).toNat]
        sampleState =
      onFinish { sampleState with isRunning := false, remainingSeconds := 0 } :=
  ⟨⟨rfl, by decide, by decide⟩,
   (claim_C2_countdown_completion sampleState rfl (by decide) (by decide)).2.1⟩

/-- C3: for every current mode, `skip()` leaves `completedFocusCount`,
`totalMinutes`, the CategoryMinutes cache and the focus-event log
unchanged (no FocusEvent is emitted); it only stops the running flag
and transitions to the next mode with a fresh countdown of the next
mode's duration. -/
theorem claim_C3_skip_frame (s : EngineState) :
    (handleSkip s).completedFocusCount = s.completedFocusCount ∧
    (handleSkip s).totalMinutes = s.totalMinutes ∧
    (handleSkip s).categoryMinutes = s.categoryMinutes ∧
    (handleSkip s).focusEvents = s.focusEvents ∧
    (handleSkip s).isRunning = false ∧
    (handleSkip s).mode = nextMode s.mode s.completedFocusCount ∧
    (handleSkip s).remainingSeconds =
      durGet s.durations (nextMode s.mode s.completedFocusCount) * 60 ∧
    (handleSkip s).durations = s.durations ∧
    (handleSkip s).selectedCategory = s.selectedCategory := by
  refine ⟨rfl, rfl, rfl, rfl, rfl, rfl, rfl, rfl, rfl⟩

/-- C10: every durations edit immediately resets `remainingSeconds` to
`durations[currentMode] * 60` — also when only another mode's value
changed — while `mode`, `isRunning`, the counters, the cache and the
event log are unchanged. -/
theorem claim_C10_durations_edit_resets (s : EngineState) (d : Durations) :
    (setDurationsOp s d).remainingSeconds = durGet d s.mode * 60 ∧
    (setDurationsOp s d).mode = s.mode ∧
    (setDurationsOp s d).isRunning = s.isRunning ∧
    (setDurationsOp s d).completedFocusCount = s.completedFocusCount ∧
    (setDurationsOp s d).totalMinutes = s.totalMinutes ∧
    (setDurationsOp s d).categoryMinutes = s.categoryMinutes ∧
    (setDurationsOp s d).focusEvents = s.focusEvents ∧
    (setDurationsOp s d).durations = d :=
  ⟨rfl, rfl, rfl, rfl, rfl, rfl, rfl, rfl⟩

/-- C4: appending the 1001st event to a log of 1000 entries evicts
exactly the oldest entry (FIFO): the result is the old log without its
head, in original relative order, with the new event at the end, and
exactly 1000 events remain. -/
theorem claim_C4_log_cap_fifo (l : List FocusEvent) (e : FocusEvent)
    (h : l.length = 1000) :
    appendEvent l e = l.drop 1 ++ [e] ∧ (appendEvent l e).length = 1000 := by
  unfold appendEvent
  have hlen : (l ++ [e]).length = 1001 := by simp [h]
  rw [if_pos (by omega)]
  rw [hlen]
  constructor
  · rw [show (1001 - 1000 : Nat) = 1 from rfl,
       List.drop_append_of_le_length (by omega)]
  · rw [List.length_drop, hlen]

/-- C4 witness at a concrete full log. -/
theorem claim_C4_log_cap_fifo_witness :
    (List.replicate 1000 (⟨0, "Genel", 25⟩ : FocusEvent)).length = 1000 ∧
    (appendEvent (List.replicate 1000 (⟨0, "Genel", 25⟩ : FocusEvent))
        ⟨1, "A", 5⟩ =
      (List.replicate 1000 (⟨0, "Genel", 25⟩ : FocusEvent)).drop 1 ++
        [⟨1, "A", 5⟩] ∧
     (appendEvent (List.replicate 1000 (⟨0, "Genel", 25⟩ : FocusEvent))
        ⟨1, "A", 5⟩).length = 1000) :=
  ⟨List.length_replicate 1000 _,
   claim_C4_log_cap_fifo _ _ (List.length_replicate 1000 _)⟩

/-! ### C5: cache versus log replay -/

lemma lookupOr0_cons (k : String) (w : Int) (rest : List (String × Int))
    (l' : String) :
    lookupOr0 ((k, w) :: rest) l' = if k = l' then w else lookupOr0 rest l' :=
  rfl

lemma cacheSet_cons (k : String) (w : Int) (rest : List (String × Int))
    (l : String) (v : Int) :
    cacheSet ((k, w) :: rest) l v =
      if k = l then (l, v) :: rest else (k, w) :: cacheSet rest l v :=
  rfl

lemma lookupOr0_cacheSet (c : List (String × Int)) (l l' : String) (v : Int) :
    lookupOr0 (cacheSet c l v) l' = if l = l' then v else lookupOr0 c l' := by
  induction c with
  | nil => by_cases h : l = l' <;> simp [cacheSet, lookupOr0, h]
  | cons p rest ih =>
    obtain ⟨k, w⟩ := p
    by_cases hk : k = l
    · subst hk
      rw [cacheSet_cons, if_pos rfl, lookupOr0_cons, lookupOr0_cons]
      by_cases h : k = l' <;> simp [h]
    · rw [cacheSet_cons, if_neg hk, lookupOr0_cons, ih, lookupOr0_cons]
      by_cases h : k = l'
      · have hll : ¬ l = l' := fun hll => hk (h.trans hll.symm)
        rw [if_pos h, if_neg hll, if_pos h]
      · rw [if_neg h]
        by_cases hll : l = l'
        · rw [if_pos hll, if_pos hll]
        · rw [if_neg hll, if_neg hll, if_neg h]

lemma replayTotal_append (log : List FocusEvent) (e : FocusEvent) (l : String) :
    replayTotal (log ++ [e]) l =
      replayTotal log l + (if e.category = l then e.minutes else 0) := by
  unfold replayTotal
  rw [List.filter_append, List.map_append, List.sum_append]
  by_cases h : e.category = l <;> simp [h]

lemma appendEvent_no_evict (log : List FocusEvent) (e : FocusEvent)
    (h : log.length < 1000) : appendEvent log e = log ++ [e] := by
  unfold appendEvent
  rw [if_neg (by simp; omega)]

lemma record_step_agree (st : List (String × Int) × List FocusEvent)
    (label : String) (m ts : Int)
    (hlen : st.2.length < 1000) (hm : 0 ≤ m)
    (hagree : ∀ l, lookupOr0 st.1 l = replayTotal st.2 l)
    (hnn : ∀ l, 0 ≤ lookupOr0 st.1 l) :
    (∀ l, lookupOr0 (recordCompletion st label m ts).1 l =
      replayTotal (recordCompletion st label m ts).2 l) ∧
    (∀ l, 0 ≤ lookupOr0 (recordCompletion st label m ts).1 l) ∧
    (recordCompletion st label m ts).2.length = st.2.length + 1 := by
  have hmax : max 0 (lookupOr0 st.1 label + m) = lookupOr0 st.1 label + m := by
    have := hnn label; omega
  refine ⟨?_, ?_, ?_⟩
  · intro l
    show lookupOr0 (cacheAdd st.1 label m) l =
      replayTotal (appendEvent st.2 { ts := ts, category := label, minutes := m }) l
    rw [appendEvent_no_evict st.2 _ hlen, replayTotal_append]
    unfold cacheAdd
    rw [lookupOr0_cacheSet, hmax]
    by_cases h : label = l
    · subst h
      rw [if_pos rfl, hagree label, if_pos rfl]
    · rw [if_neg h, hagree l, if_neg h, add_zero]
  · intro l
    show 0 ≤ lookupOr0 (cacheAdd st.1 label m) l
    unfold cacheAdd
    rw [lookupOr0_cacheSet]
    by_cases h : label = l
    · rw [if_pos h]; exact le_max_left 0 _
    · rw [if_neg h]; exact hnn l
  · show (appendEvent st.2 _).length = st.2.length + 1
    rw [appendEvent_no_evict st.2 _ hlen]
    simp

lemma foldRecord_agree_aux (cmds : List (String × Int))
    (st : List (String × Int) × List FocusEvent)
    (hlen : st.2.length + cmds.length ≤ 1000)
    (hm : ∀ p ∈ cmds, 0 ≤ p.2)
    (hagree : ∀ l, lookupOr0 st.1 l = replayTotal st.2 l)
    (hnn : ∀ l, 0 ≤ lookupOr0 st.1 l) :
    ∀ l, lookupOr0
        (cmds.foldl (fun st p => recordCompletion st p.1 p.2 0) st).1 l =
      replayTotal
        (cmds.foldl (fun st p => recordCompletion st p.1 p.2 0) st).2 l := by
  induction cmds generalizing st with
  | nil => exact hagree
  | cons p rest ih =>
    rw [List.foldl_cons]
    obtain ⟨ha, hb, hc⟩ := record_step_agree st p.1 p.2 0
      (by simp at hlen; omega) (hm p (by simp)) hagree hnn
    exact ih (recordCompletion st p.1 p.2 0)
      (by rw [hc]; simp at hlen ⊢; omega)
      (fun q hq => hm q (by simp [hq])) ha hb

/-- C5 (amended): as long as the log has not hit its 1000-entry cap —
at most 1000 completions recorded from the empty statistics state, with
nonnegative minutes — `recordCompletion` updates the cache and the log
in lockstep, and replaying the log equals the cache on every category;
once the cap evicts, the lifetime cache exceeds the replayed total (see
the counterexample). -/
theorem claim_C5_lockstep_under_cap (cmds : List (String × Int))
    (hlen : cmds.length ≤ 1000) (hm : ∀ p ∈ cmds, 0 ≤ p.2) (l : String) :
    lookupOr0 (foldRecord cmds).1 l = replayTotal (foldRecord cmds).2 l := by
  unfold foldRecord
  exact foldRecord_agree_aux cmds ([], []) (by simpa) hm
    (fun _ => rfl) (fun _ => le_refl 0) l

/-- C5 witness: three completions over two categories. -/
theorem claim_C5_lockstep_under_cap_witness :
    (([("A", 25), ("B", 5), ("A", 10)] : List (String × Int)).length ≤ 1000 ∧
     ∀ p ∈ ([("A", 25), ("B", 5), ("A", 10)] : List (String × Int)),
       0 ≤ p.2) ∧
    lookupOr0 (foldRecord [("A", 25), ("B", 5), ("A", 10)]).1 "A" =
      replayTotal (foldRecord [("A", 25), ("B", 5), ("A", 10)]).2 "A" :=
  ⟨⟨by decide, by decide⟩,
   claim_C5_lockstep_under_cap _ (by decide) (by decide) "A"⟩

lemma runRecord_succ (k : Nat) : runRecord (k + 1) = recordStep (runRecord k) := by
  unfold runRecord
  exact Function.iterate_succ_apply' recordStep k ([], [])

lemma runRecord_cache (n : Nat) (hn : 1 ≤ n) :
    (runRecord n).1 = [("A", 25 * (n : Int))] := by
  induction n with
  | zero => omega
  | succ k ih =>
    rw [runRecord_succ]
    by_cases hk : k = 0
    · subst hk
      show cacheAdd (runRecord 0).1 "A" 25 = _
      norm_num [runRecord, cacheAdd, cacheSet, lookupOr0]
    · have h1 := ih (by omega)
      show cacheAdd (runRecord k).1 "A" 25 = _
      rw [h1]
      unfold cacheAdd
      rw [lookupOr0_cons, if_pos rfl, cacheSet_cons, if_pos rfl,
        max_eq_right (by positivity),
        show (25 : Int) * (k : Int) + 25 = 25 * ((k : Int) + 1) from by ring]
      push_cast
      rfl

lemma runRecord_log (n : Nat) :
    (runRecord n).2 = List.replicate (min n 1000) ⟨0, "A", 25⟩ := by
  induction n with
  | zero => rfl
  | succ k ih =>
    rw [runRecord_succ]
    show appendEvent (runRecord k).2 ⟨0, "A", 25⟩ = _
    rw [ih]
    unfold appendEvent
    rw [← List.replicate_succ']
    by_cases h : k < 1000
    · rw [if_neg (by simp only [List.length_replicate]; omega)]
      congr 1
      omega
    · rw [if_pos (by simp only [List.length_replicate]; omega)]
      simp only [List.length_replicate]
      have hmin : min k 1000 = 1000 := by omega
      rw [hmin]
      rw [show (1000 + 1 - 1000 : Nat) = 1 from rfl, List.drop_replicate]
      congr 1
      omega

/-- C5 counterexample: after 1001 identical 25-minute completions in
category "A" from the empty statistics state, the capped event log
replays to 25000 minutes while the lifetime cache holds 25025 — the
cache and the log disagree, refuting "never disagree at every point in
time". -/
theorem claim_C5_counterexample :
    lookupOr0 (runRecord 1001).1 "A" = 25025 ∧
    replayTotal (runRecord 1001).2 "A" = 25000 ∧
    lookupOr0 (runRecord 1001).1 "A" ≠ replayTotal (runRecord 1001).2 "A" := by
  have hc := runRecord_cache 1001 (by omega)
  have hl := runRecord_log 1001
  have h1 : lookupOr0 (runRecord 1001).1 "A" = 25025 := by
    rw [hc]; norm_num [lookupOr0]
  have h2 : replayTotal (runRecord 1001).2 "A" = 25000 := by
    rw [hl]
    show replayTotal (List.replicate (min 1001 1000) ⟨0, "A", 25⟩) "A" = 25000
    rw [show min 1001 1000 = 1000 from rfl]
    unfold replayTotal
    rw [List.filter_replicate]
    norm_num
  exact ⟨h1, h2, by rw [h1, h2]; norm_num⟩

/-- C6 counterexample: the startup load of the persisted value
`\x7b"focus": 9999\x7d` merges 9999 into the durations record without
clamping, so the durations are not in [1,180] after that operation. -/
theorem claim_C6_counterexample :
    mergeDurations DEFAULT_DURATIONS ⟨some 9999, none, none⟩ =
      { focus := 9999, short := 5, long := 15 } ∧
    ¬ durationsInRange (mergeDurations DEFAULT_DURATIONS
        ⟨some 9999, none, none⟩) :=
  ⟨rfl, by decide⟩

/-- C6 (amended): the defaults satisfy the [1,180] invariant, every
settings-input change clamps its value into [1,180] (non-numeric input
reads as 0 and clamps to 1), and the invariant is preserved by each of
the three input handlers; the startup load, by contrast, merges
persisted values without clamping. -/
theorem claim_C6_clamp_invariant (d : Durations) (raw : Option Int)
    (h : durationsInRange d) :
    durationsInRange DEFAULT_DURATIONS ∧
    (1 ≤ clampDuration (inputNumber raw) ∧
      clampDuration (inputNumber raw) ≤ 180) ∧
    durationsInRange (setFocusInput d raw) ∧
    durationsInRange (setShortInput d raw) ∧
    durationsInRange (setLongInput d raw) := by
  obtain ⟨hf, hs, hl⟩ := h
  refine ⟨by decide, ?_, ?_, ?_, ?_⟩ <;>
    simp only [durationsInRange, setFocusInput, setShortInput, setLongInput,
      clampDuration, inputNumber] <;>
    cases raw <;>
    simp only [Option.getD] <;>
    omega

/-- C6 witness: the clamp invariant applied at the defaults and an
out-of-range input of 500. -/
theorem claim_C6_clamp_invariant_witness :
    durationsInRange DEFAULT_DURATIONS ∧
    (durationsInRange DEFAULT_DURATIONS ∧
     (1 ≤ clampDuration (inputNumber (some 500)) ∧
       clampDuration (inputNumber (some 500)) ≤ 180) ∧
     durationsInRange (setFocusInput DEFAULT_DURATIONS (some 500)) ∧
     durationsInRange (setShortInput DEFAULT_DURATIONS (some 500)) ∧
     durationsInRange (setLongInput DEFAULT_DURATIONS (some 500))) :=
  ⟨by decide, claim_C6_clamp_invariant DEFAULT_DURATIONS (some 500) (by decide)⟩

/-- C7 counterexample: the stored durations value `\x7b"focus":"x"\x7d` is
malformed (wrong shape: the field must be a number), yet it is not
treated as an absent value — the merge carries the string `"x"` into
the durations state instead of falling back to the default 25. -/
theorem claim_C7_counterexample :
    (loadDurationsRaw rawDefaultDurations
        (.value (.obj [("focus", .str "x")]))).focus = .str "x" ∧
    loadDurationsRaw rawDefaultDurations (.value (.obj [("focus", .str "x")]))
      ≠ loadDurationsRaw rawDefaultDurations .absent := by
  refine ⟨rfl, fun h => ?_⟩
  have h2 := congrArg RawDurations.focus h
  simp only [loadDurationsRaw, mergeRawDurations, lookupLast,
    rawDefaultDurations] at h2
  exact absurd h2 (by simp [List.lookup])

/-- C7 (amended): corrupt JSON and stored values that are not objects
are treated identically to an absent value for the durations key (the
state silently keeps its previous defaults), and for the numeric keys
any non-finite parse keeps the initial value; an object-shaped
durations value, however, is merged field-wise without validating
field types. -/
theorem claim_C7_malformed_fallback (prev : RawDurations) (b : Bool)
    (c : Int) (t : String) (xs : List JVal) (fs : List (String × JVal))
    (n : Int) :
    loadDurationsRaw prev .corrupt = prev ∧
    loadDurationsRaw prev .absent = prev ∧
    loadDurationsRaw prev (.value .null) = prev ∧
    loadDurationsRaw prev (.value (.bool b)) = prev ∧
    loadDurationsRaw prev (.value (.num c)) = prev ∧
    loadDurationsRaw prev (.value (.str t)) = prev ∧
    loadDurationsRaw prev (.value (.arr xs)) = prev ∧
    loadDurationsRaw prev (.value (.obj fs)) = mergeRawDurations prev fs ∧
    loadStoredNumber n .absent = n ∧
    loadStoredNumber n .nonNumeric = n :=
  ⟨rfl, rfl, rfl, rfl, rfl, rfl, rfl, rfl, rfl, rfl⟩

/-! ### C8: weekly totals -/

lemma lookupSum_cons (q : String) (v : Int) (rest : List (String × Int))
    (k' : String) :
    lookupSum ((q, v) :: rest) k' =
      (if q = k' then v else 0) + lookupSum rest k' := by
  by_cases h : q = k' <;> simp [lookupSum, List.filter_cons, h]

lemma lookupSum_bump (l : List (String × Int)) (k : String) (m : Int)
    (k' : String) :
    lookupSum (bump l k m) k' = lookupSum l k' + (if k = k' then m else 0) := by
  induction l with
  | nil => by_cases h : k = k' <;> simp [bump, lookupSum, h]
  | cons p rest ih =>
    obtain ⟨q, v⟩ := p
    by_cases hq : q = k
    · subst hq
      rw [show bump ((q, v) :: rest) q m = (q, v + m) :: rest from by
        simp [bump]]
      rw [lookupSum_cons, lookupSum_cons]
      by_cases h' : q = k'
      · simp only [if_pos h']
        ring
      · simp [h']
    · rw [show bump ((q, v) :: rest) k m = (q, v) :: bump rest k m from by
        simp [bump, hq]]
      rw [lookupSum_cons, lookupSum_cons, ih]
      ring

lemma lookupSum_perm (l1 l2 : List (String × Int)) (h : l1.Perm l2)
    (k : String) : lookupSum l1 k = lookupSum l2 k :=
  List.Perm.sum_eq (List.Perm.map _ (List.Perm.filter _ h))

lemma lookupSum_sortDesc (l : List (String × Int)) (k : String) :
    lookupSum (sortBreakdownDesc l) k = lookupSum l k :=
  lookupSum_perm _ _ (List.perm_insertionSort _ _) k

lemma getD_set_self (l : List DayRow) (i : Nat) (a : DayRow)
    (h : i < l.length) : (l.set i a).getD i emptyRow = a := by
  rw [List.getD_eq_getElem?_getD, List.getElem?_set_self h]
  rfl

lemma getD_set_ne (l : List DayRow) (i j : Nat) (a : DayRow) (h : i ≠ j) :
    (l.set i a).getD j emptyRow = l.getD j emptyRow := by
  rw [List.getD_eq_getElem?_getD, List.getElem?_set_ne h,
    ← List.getD_eq_getElem?_getD]

lemma inWeekWindow_true_iff (S : Int) (e : FocusEvent) :
    inWeekWindow S e = true ↔ (S ≤ e.ts ∧ e.ts < S + 7 * dayMs) := by
  unfold inWeekWindow
  simp [Bool.and_eq_true, decide_eq_true_eq]

lemma fold_week (S : Int) (evs : List FocusEvent) (days : List DayRow)
    (tot : List (String × Int)) (hlen : days.length = 7) :
    ((evs.foldl (addEventToWeek S) (days, tot)).1.length = 7) ∧
    (∀ i, i < 7 →
      ((evs.foldl (addEventToWeek S) (days, tot)).1.getD i emptyRow).date =
        (days.getD i emptyRow).date ∧
      ((evs.foldl (addEventToWeek S) (days, tot)).1.getD i emptyRow).total =
        (days.getD i emptyRow).total +
        ((evs.filter (inBucket S i)).map FocusEvent.minutes).sum ∧
      (∀ l, lookupSum
          ((evs.foldl (addEventToWeek S) (days, tot)).1.getD i
            emptyRow).breakdown l =
        lookupSum (days.getD i emptyRow).breakdown l +
        ((evs.filter (inBucketCat S i l)).map FocusEvent.minutes).sum)) ∧
    (∀ l, lookupSum (evs.foldl (addEventToWeek S) (days, tot)).2 l =
      lookupSum tot l +
      ((evs.filter (inWindowCat S l)).map FocusEvent.minutes).sum) := by
  induction evs generalizing days tot with
  | nil =>
    exact ⟨hlen, fun i hi => ⟨rfl, by simp, fun l => by simp⟩, fun l => by simp⟩
  | cons e evs ih =>
    rw [List.foldl_cons]
    by_cases hw : S ≤ e.ts ∧ e.ts < S + 7 * dayMs
    · have hwB : inWeekWindow S e = true := (inWeekWindow_true_iff S e).mpr hw
      have hidx7 : ((e.ts - S) / dayMs).toNat < 7 := by
        unfold dayMs at hw ⊢; omega
      have hidxlen : ((e.ts - S) / dayMs).toNat < days.length := hlen ▸ hidx7
      have hget : days[((e.ts - S) / dayMs).toNat]? =
          some (days.getD ((e.ts - S) / dayMs).toNat emptyRow) := by
        rw [List.getElem?_eq_getElem hidxlen, List.getD_eq_getElem?_getD,
          List.getElem?_eq_getElem hidxlen]
        rfl
      have hstep : addEventToWeek S (days, tot) e =
          (days.set ((e.ts - S) / dayMs).toNat
            ⟨(days.getD ((e.ts - S) / dayMs).toNat emptyRow).date,
             (days.getD ((e.ts - S) / dayMs).toNat emptyRow).total + e.minutes,
             bump (days.getD ((e.ts - S) / dayMs).toNat emptyRow).breakdown
               e.category e.minutes⟩,
           bump tot e.category e.minutes) := by
        unfold addEventToWeek
        dsimp only
        rw [if_pos hw, hget]
      rw [hstep]
      obtain ⟨L, H, T⟩ := ih (days.set ((e.ts - S) / dayMs).toNat
          ⟨(days.getD ((e.ts - S) / dayMs).toNat emptyRow).date,
           (days.getD ((e.ts - S) / dayMs).toNat emptyRow).total + e.minutes,
           bump (days.getD ((e.ts - S) / dayMs).toNat emptyRow).breakdown
             e.category e.minutes⟩)
        (bump tot e.category e.minutes)
        (by rw [List.length_set]; exact hlen)
      refine ⟨L, fun i hi => ?_, fun l => ?_⟩
      · obtain ⟨Hd, Ht, Hb⟩ := H i hi
        by_cases hie : i = ((e.ts - S) / dayMs).toNat
        · subst hie
          have hbB : inBucket S ((e.ts - S) / dayMs).toNat e = true := by
            simp [inBucket, hwB]
          refine ⟨?_, ?_, ?_⟩
          · rw [Hd, getD_set_self _ _ _ hidxlen]
          · rw [Ht, getD_set_self _ _ _ hidxlen, List.filter_cons,
              if_pos hbB, List.map_cons, List.sum_cons]
            ring
          · intro l
            rw [Hb l, getD_set_self _ _ _ hidxlen, lookupSum_bump]
            by_cases hc : e.category = l
            · have hcB : inBucketCat S ((e.ts - S) / dayMs).toNat l e =
                  true := by
                simp [inBucketCat, hbB, hc]
              rw [List.filter_cons, if_pos hcB, List.map_cons,
                List.sum_cons, if_pos hc]
              ring
            · have hcF : ¬ inBucketCat S ((e.ts - S) / dayMs).toNat l e =
                  true := by
                simp only [inBucketCat, Bool.and_eq_true, beq_iff_eq]
                exact fun h => hc h.2
              rw [List.filter_cons, if_neg hcF, if_neg hc, add_zero]
        · have hne : ((e.ts - S) / dayMs).toNat ≠ i := fun h => hie h.symm
          have hbF : ¬ inBucket S i e = true := by
            simp only [inBucket, Bool.and_eq_true, beq_iff_eq]
            exact fun h => hne h.2
          refine ⟨?_, ?_, ?_⟩
          · rw [Hd, getD_set_ne _ _ _ _ hne]
          · rw [Ht, getD_set_ne _ _ _ _ hne, List.filter_cons, if_neg hbF]
          · intro l
            have hcF : ¬ inBucketCat S i l e = true := by
              simp only [inBucketCat, Bool.and_eq_true]
              exact fun h => hbF h.1
            rw [Hb l, getD_set_ne _ _ _ _ hne, List.filter_cons, if_neg hcF]
      · rw [T l, lookupSum_bump]
        by_cases hc : e.category = l
        · have hcB : inWindowCat S l e = true := by
            simp [inWindowCat, hwB, hc]
          rw [List.filter_cons, if_pos hcB, List.map_cons, List.sum_cons,
            if_pos hc]
          ring
        · have hcF : ¬ inWindowCat S l e = true := by
            simp only [inWindowCat, Bool.and_eq_true, beq_iff_eq]
            exact fun h => hc h.2
          rw [List.filter_cons, if_neg hcF, if_neg hc, add_zero]
    · have hwF : ¬ inWeekWindow S e = true := fun h =>
        hw ((inWeekWindow_true_iff S e).mp h)
      have hstep : addEventToWeek S (days, tot) e = (days, tot) := by
        unfold addEventToWeek
        dsimp only
        rw [if_neg hw]
      rw [hstep]
      obtain ⟨L, H, T⟩ := ih days tot hlen
      refine ⟨L, fun i hi => ?_, fun l => ?_⟩
      · obtain ⟨Hd, Ht, Hb⟩ := H i hi
        have hbF : ¬ inBucket S i e = true := by
          simp only [inBucket, Bool.and_eq_true]
          exact fun h => hwF h.1
        refine ⟨Hd, ?_, ?_⟩
        · rw [Ht, List.filter_cons, if_neg hbF]
        · intro l
          have hcF : ¬ inBucketCat S i l e = true := by
            simp only [inBucketCat, Bool.and_eq_true]
            exact fun h => hbF h.1
          rw [Hb l, List.filter_cons, if_neg hcF]
      · have hcF : ¬ inWindowCat S l e = true := by
          simp only [inWindowCat, Bool.and_eq_true]
          exact fun h => hwF h.1
        rw [T l, List.filter_cons, if_neg hcF]

lemma weekly_days0_getD (S : Int) (i : Nat) (hi : i < 7) :
    ((List.range 7).map (weekRow S)).getD i emptyRow = weekRow S i := by
  rw [List.getD_eq_getElem?_getD, List.getElem?_map, List.getElem?_range hi]
  rfl

lemma getD_map_sortify (L : List DayRow) (i : Nat) (hi : i < L.length) :
    (L.map (fun d => { d with
        breakdown := sortBreakdownDesc d.breakdown })).getD i emptyRow =
      { L.getD i emptyRow with
        breakdown := sortBreakdownDesc (L.getD i emptyRow).breakdown } := by
  rw [List.getD_eq_getElem?_getD, List.getElem?_map,
    List.getElem?_eq_getElem hi, List.getD_eq_getElem?_getD,
    List.getElem?_eq_getElem hi]
  rfl

lemma weekStartDay_monday (off now : Int) :
    (weekStartDay off now + 4) % 7 = 1 := by
  unfold weekStartDay localDay
  omega

lemma window_iff (off now : Int) (e : FocusEvent) :
    (weekStartMs off now ≤ e.ts ∧ e.ts < weekStartMs off now + 7 * dayMs) ↔
    (weekStartDay off now ≤ localDay off e.ts ∧
      localDay off e.ts < weekStartDay off now + 7) := by
  unfold weekStartMs weekStartDay localDay dayMs
  omega

lemma inBucket_iff (off now : Int) (e : FocusEvent) (i : Nat) (hi : i < 7) :
    inBucket (weekStartMs off now) i e = true ↔
      localDay off e.ts = weekStartDay off now + (i : Int) := by
  unfold inBucket inWeekWindow weekStartMs weekStartDay localDay dayMs
  simp only [Bool.and_eq_true, decide_eq_true_eq, beq_iff_eq]
  omega

lemma inBucketCat_iff (off now : Int) (e : FocusEvent) (i : Nat)
    (l : String) (hi : i < 7) :
    inBucketCat (weekStartMs off now) i l e = true ↔
      (localDay off e.ts = weekStartDay off now + (i : Int) ∧
        e.category = l) := by
  unfold inBucketCat
  simp only [Bool.and_eq_true, beq_iff_eq]
  exact and_congr (inBucket_iff off now e i hi) Iff.rfl

lemma inWindowCat_iff (off now : Int) (e : FocusEvent) (l : String) :
    inWindowCat (weekStartMs off now) l e = true ↔
      (weekStartDay off now ≤ localDay off e.ts ∧
        localDay off e.ts < weekStartDay off now + 7 ∧ e.category = l) := by
  unfold inWindowCat
  simp only [Bool.and_eq_true, beq_iff_eq, inWeekWindow_true_iff]
  rw [window_iff off now e, and_assoc]

/-- C8: `weeklyTotals` computes the current Monday-start local-time
calendar week and returns exactly 7 per-day entries whose dates are the
consecutive local midnights of days Monday through Sunday (the week's
first day has weekday 1, Monday); each entry's total and per-category
breakdown sum exactly the events of its own local calendar day, the
week-wide per-category totals sum exactly the week's events, and every
event with a timestamp outside the current week contributes to none of
them.  Local time is modelled as a fixed UTC offset `off`. -/
theorem claim_C8_weekly_totals (off now : Int) (events : List FocusEvent)
    (i : Nat) (l : String) (hi : i < 7) :
    (weeklyTotals off now events).1.length = 7 ∧
    (weekStartDay off now + 4) % 7 = 1 ∧
    ((weeklyTotals off now events).1.getD i emptyRow).date =
      weekStartMs off now + (i : Int) * dayMs ∧
    ((weeklyTotals off now events).1.getD i emptyRow).total =
      daySumAt off (weekStartDay off now + (i : Int)) events ∧
    lookupSum ((weeklyTotals off now events).1.getD i emptyRow).breakdown l =
      dayCatSumAt off (weekStartDay off now + (i : Int)) events l ∧
    lookupSum (weeklyTotals off now events).2 l =
      weekCatSum off now events l := by
  obtain ⟨L, H, T⟩ := fold_week (weekStartMs off now) events
    ((List.range 7).map (weekRow (weekStartMs off now))) [] (by simp)
  obtain ⟨Hd, Ht, Hb⟩ := H i hi
  have hW1 : (weeklyTotals off now events).1 =
      (events.foldl (addEventToWeek (weekStartMs off now))
        ((List.range 7).map (weekRow (weekStartMs off now)), [])).1.map
        (fun d => { d with breakdown := sortBreakdownDesc d.breakdown }) := rfl
  have hW2 : (weeklyTotals off now events).2 =
      (events.foldl (addEventToWeek (weekStartMs off now))
        ((List.range 7).map (weekRow (weekStartMs off now)), [])).2 := rfl
  have hgetD := getD_map_sortify
    ((events.foldl (addEventToWeek (weekStartMs off now))
      ((List.range 7).map (weekRow (weekStartMs off now)), [])).1) i
    (by rw [L]; exact hi)
  have hbucket : events.filter (inBucket (weekStartMs off now) i) =
      events.filter (fun e => localDay off e.ts =
        weekStartDay off now + (i : Int)) :=
    List.filter_congr (fun e _ => by
      rw [Bool.eq_iff_iff, decide_eq_true_eq]
      exact inBucket_iff off now e i hi)
  have hbucketCat : events.filter (inBucketCat (weekStartMs off now) i l) =
      events.filter (fun e => localDay off e.ts =
        weekStartDay off now + (i : Int) ∧ e.category = l) :=
    List.filter_congr (fun e _ => by
      rw [Bool.eq_iff_iff, decide_eq_true_eq]
      exact inBucketCat_iff off now e i l hi)
  have hweekCat : events.filter (inWindowCat (weekStartMs off now) l) =
      events.filter (fun e => weekStartDay off now ≤ localDay off e.ts ∧
        localDay off e.ts < weekStartDay off now + 7 ∧ e.category = l) :=
    List.filter_congr (fun e _ => by
      rw [Bool.eq_iff_iff, decide_eq_true_eq]
      exact inWindowCat_iff off now e l)
  refine ⟨?_, weekStartDay_monday off now, ?_, ?_, ?_, ?_⟩
  · rw [hW1, List.length_map]
    exact L
  · rw [hW1, hgetD]
    show ((events.foldl (addEventToWeek (weekStartMs off now))
        ((List.range 7).map (weekRow (weekStartMs off now)),
          [])).1.getD i emptyRow).date =
      weekStartMs off now + (i : Int) * dayMs
    rw [Hd, weekly_days0_getD _ i hi]
    rfl
  · rw [hW1, hgetD]
    show ((events.foldl (addEventToWeek (weekStartMs off now))
        ((List.range 7).map (weekRow (weekStartMs off now)),
          [])).1.getD i emptyRow).total =
      daySumAt off (weekStartDay off now + (i : Int)) events
    rw [Ht, weekly_days0_getD _ i hi, hbucket]
    unfold daySumAt
    show (0 : Int) + _ = _
    exact zero_add _
  · rw [hW1, hgetD]
    show lookupSum (sortBreakdownDesc
        ((events.foldl (addEventToWeek (weekStartMs off now))
          ((List.range 7).map (weekRow (weekStartMs off now)),
            [])).1.getD i emptyRow).breakdown) l =
      dayCatSumAt off (weekStartDay off now + (i : Int)) events l
    rw [lookupSum_sortDesc, Hb l, weekly_days0_getD _ i hi, hbucketCat]
    unfold dayCatSumAt
    show (0 : Int) + _ = _
    exact zero_add _
  · rw [hW2, T l, hweekCat]
    unfold weekCatSum
    show (0 : Int) + _ = _
    exact zero_add _

/-- C8 witness: one event on the Thursday of the epoch week, UTC local
time. -/
theorem claim_C8_weekly_totals_witness :
    (3 : Nat) < 7 ∧
    ((weeklyTotals 0 0 [⟨0, "A", 25⟩]).1.length = 7 ∧
     (weekStartDay 0 0 + 4) % 7 = 1 ∧
     ((weeklyTotals 0 0 [⟨0, "A", 25⟩]).1.getD 3 emptyRow).date =
       weekStartMs 0 0 + (3 : Int) * dayMs ∧
     ((weeklyTotals 0 0 [⟨0, "A", 25⟩]).1.getD 3 emptyRow).total =
       daySumAt 0 (weekStartDay 0 0 + (3 : Int)) [⟨0, "A", 25⟩] ∧
     lookupSum ((weeklyTotals 0 0 [⟨0, "A", 25⟩]).1.getD 3
         emptyRow).breakdown "A" =
       dayCatSumAt 0 (weekStartDay 0 0 + (3 : Int)) [⟨0, "A", 25⟩] "A" ∧
     lookupSum (weeklyTotals 0 0 [⟨0, "A", 25⟩]).2 "A" =
       weekCatSum 0 0 [⟨0, "A", 25⟩] "A") :=
  ⟨by decide, claim_C8_weekly_totals 0 0 [⟨0, "A", 25⟩] 3 "A" (by decide)⟩

/-! ### C9: category colors -/

lemma lexLeN_total (as bs : List Nat) :
    lexLeN as bs = true ∨ lexLeN bs as = true := by
  induction as generalizing bs with
  | nil => left; rfl
  | cons a as ih =>
    cases bs with
    | nil => right; rfl
    | cons b bs =>
      by_cases h : a = b
      · have h' : b = a := h.symm
        simp only [lexLeN, if_pos h, if_pos h']
        exact ih bs
      · have h' : ¬ b = a := fun hh => h hh.symm
        simp only [lexLeN, if_neg h, if_neg h', decide_eq_true_iff]
        omega

lemma lexLeN_trans (as bs cs : List Nat) (h1 : lexLeN as bs = true)
    (h2 : lexLeN bs cs = true) : lexLeN as cs = true := by
  induction as generalizing bs cs with
  | nil => rfl
  | cons a as ih =>
    cases bs with
    | nil => exact absurd h1 (by simp [lexLeN])
    | cons b bs =>
      cases cs with
      | nil => exact absurd h2 (by simp [lexLeN])
      | cons c cs =>
        simp only [lexLeN] at h1 h2 ⊢
        by_cases hab : a = b
        · rw [if_pos hab] at h1
          by_cases hbc : b = c
          · rw [if_pos hbc] at h2
            rw [if_pos (hab.trans hbc)]
            exact ih bs cs h1 h2
          · rw [if_neg hbc, decide_eq_true_iff] at h2
            rw [if_neg (by omega), decide_eq_true_iff]
            omega
        · rw [if_neg hab, decide_eq_true_iff] at h1
          by_cases hbc : b = c
          · rw [if_pos hbc] at h2
            rw [if_neg (by omega), decide_eq_true_iff]
            omega
          · rw [if_neg hbc, decide_eq_true_iff] at h2
            rw [if_neg (by omega), decide_eq_true_iff]
            omega

lemma trLe_total (a b : String) : trLe a b = true ∨ trLe b a = true :=
  lexLeN_total _ _

lemma trLe_trans (a b c : String) (h1 : trLe a b = true)
    (h2 : trLe b c = true) : trLe a c = true :=
  lexLeN_trans _ _ _ h1 h2

lemma mem_foldl_addUnique (L acc : List String) (x : String) :
    x ∈ L.foldl addUnique acc ↔ x ∈ acc ∨ x ∈ L := by
  induction L generalizing acc with
  | nil => simp
  | cons a L ih =>
    rw [List.foldl_cons, ih]
    unfold addUnique
    by_cases h : a ∈ acc
    · rw [if_pos h]
      simp only [List.mem_cons]
      constructor
      · rintro (hx | hx)
        · exact Or.inl hx
        · exact Or.inr (Or.inr hx)
      · rintro (hx | rfl | hx)
        · exact Or.inl hx
        · exact Or.inl h
        · exact Or.inr hx
    · rw [if_neg h]
      simp only [List.mem_append, List.mem_singleton, List.mem_cons]
      tauto

lemma mem_activityLabels (cache : List (String × Int))
    (events : List FocusEvent) (x : String) :
    x ∈ activityLabels cache events ↔
      trimS x ≠ "" ∧
        (x ∈ cache.map Prod.fst ∨ x ∈ events.map FocusEvent.category) := by
  unfold activityLabels
  rw [List.mem_filter, mem_foldl_addUnique, List.mem_append]
  simp only [List.not_mem_nil, false_or, decide_eq_true_iff]
  exact and_comm

lemma getD_palette_mem (m : Nat) :
    palette.getD (m % 5) "var(--chart-1)" ∈ palette := by
  rcases (by omega : m % 5 = 0 ∨ m % 5 = 1 ∨ m % 5 = 2 ∨ m % 5 = 3 ∨
      m % 5 = 4) with h | h | h | h | h <;>
    rw [h] <;> simp [palette]

lemma colorOf_mem_palette (cats : List String) (l : String) :
    colorOf cats l ∈ palette := by
  unfold colorOf
  cases hidx : List.indexOf? l cats with
  | none => simp [palette]
  | some i =>
    show palette.getD (i % palette.length) "var(--chart-1)" ∈ palette
    exact getD_palette_mem i

/-- C9 (amended): for the host's Turkish collator — any total,
transitive "sorts no later than" relation, which `localeCompare`
provides — each distinct category label with recorded activity receives
one color of the fixed five-color palette, deterministically and stably
(the assignment is a pure function of the collator, the cache and the
event log), but in locale-sorted order of the labels — not in
first-seen order; the label set is exactly the nonblank labels
appearing as cache keys or event categories. -/
theorem claim_C9_sorted_palette (le : String → String → Bool)
    (cache : List (String × Int)) (events : List FocusEvent)
    (htot : ∀ a b, le a b = true ∨ le b a = true)
    (htrans : ∀ a b c, le a b = true → le b c = true → le a c = true) :
    List.Sorted (fun a b => le a b = true) (allCategories le cache events) ∧
    (∀ l, categoryColor le cache events l ∈ palette) ∧
    (∀ x, x ∈ allCategories le cache events ↔
      trimS x ≠ "" ∧
        (x ∈ cache.map Prod.fst ∨ x ∈ events.map FocusEvent.category)) := by
  refine ⟨?_, ?_, ?_⟩
  · exact @List.sorted_insertionSort String (fun a b => le a b = true) _
      ⟨htot⟩ ⟨fun a b c => htrans a b c⟩ (activityLabels cache events)
  · intro l
    exact colorOf_mem_palette _ l
  · intro x
    rw [← mem_activityLabels]
    exact (List.perm_insertionSort _ _).mem_iff

/-- C9 witness: the Turkish collator instance `trLe` is total and
transitive, and the sorted-palette theorem applied at it, with activity
on two of the default categories. -/
theorem claim_C9_sorted_palette_witness :
    (∀ a b, trLe a b = true ∨ trLe b a = true) ∧
    (∀ a b c, trLe a b = true → trLe b c = true → trLe a c = true) ∧
    (List.Sorted (fun a b => trLe a b = true)
      (allCategories trLe []
        [⟨0, "Genel", 25⟩, ⟨1, "Çalışma", 25⟩]) ∧
     (∀ l, categoryColor trLe []
        [⟨0, "Genel", 25⟩, ⟨1, "Çalışma", 25⟩] l ∈ palette) ∧
     (∀ x, x ∈ allCategories trLe []
        [⟨0, "Genel", 25⟩, ⟨1, "Çalışma", 25⟩] ↔
       trimS x ≠ "" ∧
         (x ∈ ([] : List (String × Int)).map Prod.fst ∨
          x ∈ ([⟨0, "Genel", 25⟩, ⟨1, "Çalışma", 25⟩] :
            List FocusEvent).map FocusEvent.category))) :=
  ⟨trLe_total, trLe_trans,
   claim_C9_sorted_palette trLe [] [⟨0, "Genel", 25⟩, ⟨1, "Çalışma", 25⟩]
     trLe_total trLe_trans⟩

/-- C9 counterexample: with activity recorded first in category "b"
and then in category "a", the assignment "in first-seen order" would
give "b" the first palette color, but the code sorts the labels and
gives "b" the second color.  The collator instance `trLe` orders the
application's default labels exactly as the source's Turkish collator
does — Çalışma, Genel, Okuma, Yazılım — and every collator puts "a"
before "b". -/
theorem claim_C9_counterexample :
    allCategories trLe []
        [⟨0, "Genel", 25⟩, ⟨1, "Çalışma", 25⟩, ⟨2, "Okuma", 25⟩,
         ⟨3, "Yazılım", 25⟩] =
      ["Çalışma", "Genel", "Okuma", "Yazılım"] ∧
    categoryColor trLe [] [⟨0, "b", 25⟩, ⟨100, "a", 25⟩] "b" =
      "var(--chart-2)" ∧
    specColorFirstSeen [] [⟨0, "b", 25⟩, ⟨100, "a", 25⟩] "b" =
      "var(--chart-1)" ∧
    categoryColor trLe [] [⟨0, "b", 25⟩, ⟨100, "a", 25⟩] "b" ≠
      specColorFirstSeen [] [⟨0, "b", 25⟩, ⟨100, "a", 25⟩] "b" :=
  ⟨by decide, by decide, by decide, by decide⟩

end FocusPomodoro
